import Mathlib

/-!
Verification of the ForexFactoryScraper repository.

This file shallowly embeds the date/time model and the operations of
`ffs.py`, `dataset_util.py` and `csv_to_json.py` as executable Lean
definitions, and proves or refutes the frozen claims against them.

Conventions of the embedding:
* Python `datetime.datetime` objects with a fixed-offset time zone are
  modelled by the structure `DT` below (unbounded `Nat` year, offset in
  minutes as `Int`).  Comparison of aware datetimes is modelled by the
  UTC-second count `toSec`, day ordinals by CPython's `_ymd2ord` formula.
* Python byte strings in files are modelled as `List Char`, text cells as
  `String`, with `pyStrip` modelling `str.strip` on the characters.
* File systems are explicit values: the catalog file is an
  `Option (List Char)` (`none` = file absent); the converter's file system
  is a pair of association lists.
* Code that can raise is modelled with `Except`.
-/

instance {ε α : Type} [DecidableEq ε] [DecidableEq α] :
    DecidableEq (Except ε α) := fun x y =>
  match x, y with
  | .error e, .error e' =>
    if h : e = e' then .isTrue (by rw [h]) else .isFalse (by simp [h])
  | .ok a, .ok a' =>
    if h : a = a' then .isTrue (by rw [h]) else .isFalse (by simp [h])
  | .error _, .ok _ => .isFalse (by simp)
  | .ok _, .error _ => .isFalse (by simp)

/-- Model of a Python aware `datetime` with fixed-offset `tzinfo`
(`off` = UTC offset in minutes).  Years are unbounded naturals: the
repository only handles years from 2007 on, far from Python's
`datetime.MINYEAR`/`MAXYEAR` bounds. -/
structure DT where
  year : Nat
  month : Nat
  day : Nat
  hour : Nat
  minute : Nat
  second : Nat
  off : Int
  deriving DecidableEq, Repr

/-- Model of a Python `datetime.date` value (what `.date()` returns). -/
structure CDate where
  year : Nat
  month : Nat
  day : Nat
  deriving DecidableEq, Repr

/-- `datetime.date()` projection. -/
def dateOf (d : DT) : CDate := ⟨d.year, d.month, d.day⟩

/-- Python `date.__lt__`: lexicographic comparison of (year, month, day). -/
def cdLt (a b : CDate) : Bool :=
  a.year < b.year ∨ (a.year = b.year ∧
    (a.month < b.month ∨ (a.month = b.month ∧ a.day < b.day)))

/-- CPython `_is_leap`: `year % 4 == 0 and (year % 100 != 0 or year % 400 == 0)`. -/
def isLeap (y : Nat) : Prop := y % 4 = 0 ∧ (y % 100 ≠ 0 ∨ y % 400 = 0)

instance (y : Nat) : Decidable (isLeap y) := by unfold isLeap; infer_instance

/-- CPython `_DAYS_BEFORE_MONTH` table (cumulative days before month `m`
in a non-leap year). -/
def daysBeforeMonthTable (m : Nat) : Nat :=
  match m with
  | 1 => 0 | 2 => 31 | 3 => 59 | 4 => 90 | 5 => 120 | 6 => 151
  | 7 => 181 | 8 => 212 | 9 => 243 | 10 => 273 | 11 => 304 | 12 => 334
  | _ => 0

/-- CPython `_days_in_month`. -/
def daysInMonth (y m : Nat) : Nat :=
  if m = 2 then (if isLeap y then 29 else 28)
  else match m with
  | 1 => 31 | 3 => 31 | 4 => 30 | 5 => 31 | 6 => 30
  | 7 => 31 | 8 => 31 | 9 => 30 | 10 => 31 | 11 => 30 | 12 => 31
  | _ => 0

/-- CPython `_days_before_month`. -/
def daysBeforeMonth (y m : Nat) : Nat :=
  daysBeforeMonthTable m + (if 2 < m ∧ isLeap y then 1 else 0)

/-- CPython `_days_before_year`: days before January 1 of year `y`. -/
def dby (y : Nat) : Nat :=
  365 * (y - 1) + (y - 1) / 4 - (y - 1) / 100 + (y - 1) / 400

/-- CPython `_ymd2ord`: proleptic-Gregorian ordinal of a date
(January 1 of year 1 is day 1). -/
def toOrd (d : DT) : Nat := dby d.year + daysBeforeMonth d.year d.month + d.day

/-- The instant denoted by an aware datetime, in seconds: this is the
quantity Python compares when ordering aware datetimes
(wall-clock seconds since the epoch of the ordinal scale, minus the UTC
offset). -/
def toSec (d : DT) : Int :=
  (toOrd d : Int) * 86400 + d.hour * 3600 + d.minute * 60 + d.second - d.off * 60

/-- A `DT` whose date fields denote a real calendar date (the invariant
every Python `datetime` object maintains by construction). -/
def ValidDT (d : DT) : Prop :=
  1 ≤ d.year ∧ 1 ≤ d.month ∧ d.month ≤ 12 ∧ 1 ≤ d.day ∧
    d.day ≤ daysInMonth d.year d.month

instance (d : DT) : Decidable (ValidDT d) := by unfold ValidDT; infer_instance

/-- Next calendar day (time-of-day fields untouched). -/
def succDay (d : DT) : DT :=
  if d.day < daysInMonth d.year d.month then { d with day := d.day + 1 }
  else if d.month < 12 then { d with month := d.month + 1, day := 1 }
  else { d with year := d.year + 1, month := 1, day := 1 }

/-- Previous calendar day (time-of-day fields untouched). -/
def predDay (d : DT) : DT :=
  if 1 < d.day then { d with day := d.day - 1 }
  else if 1 < d.month then
    { d with month := d.month - 1, day := daysInMonth d.year (d.month - 1) }
  else { d with year := d.year - 1, month := 12, day := 31 }

/-- Python `datetime + timedelta(days=n)` (wall-clock date shift, tzinfo
kept): CPython computes it through the date ordinal; on every valid date
that equals the `n`-fold calendar-day successor used here. -/
def addDays (d : DT) : Nat → DT
  | 0 => d
  | n + 1 => succDay (addDays d n)

/-- Python `datetime.astimezone(tz)` for fixed-offset zones whose offsets
differ by less than a day: same instant re-expressed at offset `newOff`
(minutes).  Seconds are untouched because both offsets are whole minutes. -/
def astimezoneDT (d : DT) (newOff : Int) : DT :=
  let total : Int := d.hour * 60 + d.minute + (newOff - d.off)
  if total < 0 then
    { predDay d with hour := ((total + 1440) / 60).toNat,
                     minute := ((total + 1440) % 60).toNat, off := newOff }
  else if total < 1440 then
    { d with hour := (total / 60).toNat, minute := (total % 60).toNat,
             off := newOff }
  else
    { succDay d with hour := ((total - 1440) / 60).toNat,
                     minute := ((total - 1440) % 60).toNat, off := newOff }

/-- `ffs.get_next_dt(date, mode)`:
month → `date.replace(year=..., month=..., day=1, hour=0, minute=0)` via
`divmod(date.month, 12)`; week/day → `date.replace(hour=0, minute=0) +
timedelta(days=7 or 1)`; anything else raises `ValueError`. -/
def get_next_dt (d : DT) (mode : String) : Except String DT :=
  if mode = "month" then
    .ok { d with year := d.year + d.month / 12, month := d.month % 12 + 1,
                 day := 1, hour := 0, minute := 0 }
  else if mode = "week" then
    .ok (addDays { d with hour := 0, minute := 0 } 7)
  else if mode = "day" then
    .ok (addDays { d with hour := 0, minute := 0 } 1)
  else
    .error (mode ++ " is not a proper mode; please use month, week, or day.")

/-! ## Resume-point reader: `ffs.get_start_dt` -/

/-- The epoch-start fallback
`datetime(year=2007, month=1, day=1, hour=0, minute=0, tzinfo=timezone)`. -/
def fallback2007 (off : Int) : DT := ⟨2007, 1, 1, 0, 0, 0, off⟩

/-- Numeric value of a digit list. -/
def natOfDigits (cs : List Char) : Nat :=
  cs.foldl (fun a c => a * 10 + (c.toNat - 48)) 0

/-- All characters are ASCII digits and the list is nonempty. -/
def allDigits (cs : List Char) : Bool := !cs.isEmpty && cs.all Char.isDigit

/-- The value of a Python `datetime` as `fromisoformat` builds it: date
and time components plus an optional UTC offset in seconds (`none` for a
naive result, as parsing a bare `YYYY-MM-DD` or an offset-free time
yields). -/
structure PyDT where
  year : Nat
  month : Nat
  day : Nat
  hour : Nat
  minute : Nat
  second : Nat
  micro : Nat
  offSec : Option Int
  deriving DecidableEq, Repr

/-- The epoch-start fallback as the resume-point reader returns it. -/
def fallbackPy (off : Int) : PyDT := ⟨2007, 1, 1, 0, 0, 0, 0, some (off * 60)⟩

/-- CPython `parse_digits`: the value of `k` consecutive ASCII digits read
at position `p` through `g` (which yields NUL past the end, as the C code
reads a NUL-terminated buffer); any non-digit fails. -/
def digitsVal (g : Nat → Char) (p : Nat) : Nat → Option Nat
  | 0 => some 0
  | k + 1 =>
    if (g p).isDigit then
      (digitsVal g (p + 1) k).map (fun v => ((g p).toNat - 48) * 10 ^ k + v)
    else none

/-- Index of the first `+` or `-` in the list (the list's length when
there is none): how `parse_isoformat_time` locates the timezone part. -/
def findSign : List Char → Nat
  | [] => 0
  | c :: cs => if c = '+' ∨ c = '-' then 0 else findSign cs + 1

/-- The fractional-seconds tail of `parse_hh_mm_ss_ff`: exactly 3 or 6
digits filling the remaining `n - q` characters, scaled to
microseconds. -/
def parseFracAt (g : Nat → Char) (q n : Nat) : Option Nat :=
  if n - q = 3 then (digitsVal g q 3).map (· * 1000)
  else if n - q = 6 then digitsVal g q 6
  else none

/-- CPython `parse_hh_mm_ss_ff` on the region of `t` before index `n`
(the buffer may be read past `n`, as in C, and reads past the end of `t`
yield NUL).  Up to three 2-digit components separated by `:`; a `.` (or,
after the seconds, a `:`) starts the fractional part; when a component's
trailing character sits at the region boundary the function returns early
with that character unchecked — the `Bool` is C's rv = 1, "stopped on a
non-NUL boundary character". -/
def parseHMSF (t : List Char) (n : Nat) : Option (Nat × Nat × Nat × Nat × Bool) :=
  let g := fun i => t.getD i (Char.ofNat 0)
  let nul := Char.ofNat 0
  match digitsVal g 0 2 with
  | none => none
  | some h =>
    let c1 := g 2
    if 3 ≥ n then some (h, 0, 0, 0, decide (c1 ≠ nul))
    else if c1 = ':' then
      match digitsVal g 3 2 with
      | none => none
      | some mi =>
        let c2 := g 5
        if 6 ≥ n then some (h, mi, 0, 0, decide (c2 ≠ nul))
        else if c2 = ':' then
          match digitsVal g 6 2 with
          | none => none
          | some s =>
            let c3 := g 8
            if 9 ≥ n then some (h, mi, s, 0, decide (c3 ≠ nul))
            else if c3 = ':' ∨ c3 = '.' then
              match parseFracAt g 9 n with
              | some us => some (h, mi, s, us, false)
              | none => none
            else none
        else if c2 = '.' then
          match parseFracAt g 6 n with
          | some us => some (h, mi, 0, us, false)
          | none => none
        else none
    else if c1 = '.' then
      match parseFracAt g 3 n with
      | some us => some (h, 0, 0, us, false)
      | none => none
    else none

/-- CPython `parse_isoformat_time`: split the time string at the first
`+`/`-`, parse the clock part, then an optional timezone of shape
`±HH:MM` or `±HH:MM:SS` (the 16-character `±HH:MM:SS.ffffff` shape cannot
fit in the 25-byte slice `get_start_dt` parses together with a date, so it
is not modelled); the offset components are not range-checked, only
summed.  An empty time string fails (covering the length-11 input, where
the C scan overshoots and the clock parse reads the terminator). -/
def parseTimeIso (t : List Char) : Option (Nat × Nat × Nat × Nat × Option Int) :=
  let tzpos := findSign t
  match parseHMSF t tzpos with
  | none => none
  | some (h, mi, s, us, trailing) =>
    if tzpos = t.length then
      if trailing then none else some (h, mi, s, us, none)
    else
      let tzlen := t.length - tzpos
      if tzlen = 6 ∨ tzlen = 9 then
        let tzt := t.drop (tzpos + 1)
        match parseHMSF tzt tzt.length with
        | some (th, tm, ts, _, false) =>
          some (h, mi, s, us,
            some ((if t.getD tzpos ' ' = '-' then -1 else 1) *
              ((th : Int) * 3600 + tm * 60 + ts)))
        | _ => none
      else none

/-- The range validation the `datetime` (and `timezone`) constructors
perform on the parsed components: year at least 1 (at most 9999 holds by
construction from four digits), calendar-valid month/day, clock fields in
range, and a zone offset strictly within a day. -/
def mkDatetime (y mo da h mi s us : Nat) (off : Option Int) : Option PyDT :=
  if 1 ≤ y ∧ 1 ≤ mo ∧ mo ≤ 12 ∧ 1 ≤ da ∧ da ≤ daysInMonth y mo ∧
     h ≤ 23 ∧ mi ≤ 59 ∧ s ≤ 59 then
    match off with
    | some o => if -86400 < o ∧ o < 86400 then some ⟨y, mo, da, h, mi, s, us, some o⟩
                else none
    | none => some ⟨y, mo, da, h, mi, s, us, none⟩
  else none

/-- `datetime.fromisoformat` as implemented by CPython's C accelerator in
3.7–3.10: positions 0–9 must read `YYYY-MM-DD`; a 10-character string is
a naive midnight; otherwise the character at position 10 is an unchecked
separator and the rest is the time part (so an 11-character string always
fails); bytes are modelled as characters (the dataset content is ASCII).
CPython 3.11 widens the accepted grammar (`Z`, basic date/time formats,
1–6-digit fractions) but agrees with this model on every string the model
accepts and on the concrete inputs used below; `get_start_dt` therefore
takes the parse function as a parameter and this definition instantiates
it for concrete runs. -/
def pyFromIso (cs : List Char) : Option PyDT :=
  let g := fun i => cs.getD i (Char.ofNat 0)
  match digitsVal g 0 4, digitsVal g 5 2, digitsVal g 8 2 with
  | some y, some mo, some da =>
    if g 4 = '-' ∧ g 7 = '-' then
      if cs.length = 10 then mkDatetime y mo da 0 0 0 0 none
      else
        match parseTimeIso (cs.drop 11) with
        | some (h, mi, s, us, off) => mkDatetime y mo da h mi s us off
        | none => none
    else none
  | _, _, _ => none

/-- `file.readline()` starting at the current position: the characters up
to and including the next newline (or to the end of the file). -/
def takeLine : List Char → List Char
  | [] => []
  | c :: cs => if c = '\n' then ['\n'] else c :: takeLine cs

/-- The backwards scan of `get_start_dt`: starting at byte `pos` with
`rem` loop iterations left, return the position of the first newline
encountered while stepping backwards one byte at a time. -/
def scanBack (content : List Char) : Nat → Nat → Option Nat
  | _, 0 => none
  | pos, rem + 1 =>
    if content.getD pos ' ' = '\n' then some pos
    else scanBack content (pos - 1) rem

/-- `ffs.get_start_dt(timezone)`.  The catalog file is passed explicitly
(`none` = `forex_factory_catalog.csv` absent); the result pairs the
returned datetime with the resulting file state (the scan may truncate the
file to empty).  A `ValueError` escaping `datetime.fromisoformat` is the
`.error` case.  The stdlib parser is injected as `parse` because its
accepted grammar varies across CPython versions; the surrounding control
flow is version-independent.  Concrete runs use `pyFromIso`. -/
def get_start_dt (parse : List Char → Option PyDT)
    (catalog : Option (List Char)) (tz : Int) :
    Except String (PyDT × Option (List Char)) :=
  match catalog with
  | none => .ok (fallbackPy tz, none)
  | some content =>
    if (content.length : Int) - 2 > 0 then
      match scanBack content (content.length - 2) (content.length - 2) with
      | some p =>
        match parse ((takeLine (content.drop (p + 1))).take 25) with
        | some dt => .ok (dt, some content)
        | none => .error "ValueError: Invalid isoformat string"
      | none => .ok (fallbackPy tz, some [])
    else .ok (fallbackPy tz, some content)

/-! ## Row extraction: the loop body of `ffs.scrap` -/

/-- `str.strip()` on the character list. -/
def pyStripL (cs : List Char) : List Char :=
  ((cs.dropWhile Char.isWhitespace).reverse.dropWhile Char.isWhitespace).reverse

/-- `str.strip()`. -/
def pyStrip (s : String) : String := ⟨pyStripL s.data⟩

/-- `str.replace('\n', '')`. -/
def removeNL (s : String) : String := ⟨s.data.filter (· ≠ '\n')⟩

/-- Python's `in` on strings: `pat` occurs as a contiguous substring. -/
def substrIn (pat : List Char) : List Char → Bool
  | [] => pat.isEmpty
  | c :: cs => pat.isPrefixOf (c :: cs) || substrIn pat cs

/-- Python `int(...)` on the text fragments sliced out of a time token:
a nonempty digit string parses, anything else raises. -/
def parseIntPy (cs : List Char) : Option Nat :=
  if allDigits cs then some (natOfDigits cs) else none

/-- The weekday abbreviations `%a` accepts. -/
def weekdayAbbrevs : List String :=
  ["Mon", "Tue", "Wed", "Thu", "Fri", "Sat", "Sun"]

/-- Month abbreviation (`%b`) to month number. -/
def monthOfAbbrev (s : String) : Option Nat :=
  match s with
  | "Jan" => some 1 | "Feb" => some 2 | "Mar" => some 3 | "Apr" => some 4
  | "May" => some 5 | "Jun" => some 6 | "Jul" => some 7 | "Aug" => some 8
  | "Sep" => some 9 | "Oct" => some 10 | "Nov" => some 11 | "Dec" => some 12
  | _ => none

/-- Split a character list on single spaces. -/
def splitSpaces (cs : List Char) : List (List Char) :=
  match cs with
  | [] => [[]]
  | c :: rest =>
    let r := splitSpaces rest
    if c = ' ' then [] :: r
    else match r with
      | [] => [[c]]
      | w :: ws => (c :: w) :: ws

/-- `datetime.strptime(','.join([year, day_str]), '%Y,%a %b %d')` followed
by `.replace(tzinfo=ff_timezone)`: parse a day label such as `Tue Jan 2`
against the given year; the weekday abbreviation is validated but (as in
`strptime`) not checked for consistency with the date; the day number is
validated against the month's length. -/
def parseDateLabel (year : Nat) (ffOff : Int) (s : String) : Option DT :=
  match splitSpaces s.data with
  | [w, mon, dayCs] =>
    if weekdayAbbrevs.contains ⟨w⟩ then
      match monthOfAbbrev ⟨mon⟩, parseIntPy dayCs with
      | some m, some d =>
        if 1 ≤ d ∧ d ≤ daysInMonth year m ∧ dayCs.length ≤ 2 then
          some ⟨year, m, d, 0, 0, 0, ffOff⟩
        else none
      | _, _ => none
    else none
  | _ => none

/-- Time-field resolution inside the fields loop of `scrap` (the branch
for `field == 'time'` with a nonempty cell and a known date):
a token containing `'Day'` → 23:59:59; else one containing `'Data'` →
00:00:01; otherwise the 12-hour slices `time[:1+i]`, `time[2+i:4+i]`,
`time[4+i:]` with `i = 1 if len(time) == 7 else 0` are parsed, seconds 0.
`.error` is an exception (bad `int(...)` or an out-of-range minute in
`replace`), caught by the per-row handler. -/
def resolveTime (t : String) (d : DT) : Except Unit DT :=
  let tc := t.data
  if substrIn "Day".data tc then
    .ok { d with hour := 23, minute := 59, second := 59 }
  else if substrIn "Data".data tc then
    .ok { d with hour := 0, minute := 0, second := 1 }
  else
    let i := if tc.length = 7 then 1 else 0
    match parseIntPy (tc.take (1 + i)), parseIntPy ((tc.drop (2 + i)).take 2) with
    | some h, some m =>
      if m ≤ 59 then
        .ok { d with hour := h % 12 + (if (tc.drop (4 + i)) = "pm".data then 12 else 0),
                     minute := m, second := 0 }
      else .error ()
    | _, _ => .error ()

/-- One table row as seen after the collaborator selectors ran: for each
fixed field, `none` means no cell matched either selector, `some s` the
matched cell's raw text.  For the impact cell the nested `span`'s
`title` attribute is carried alongside the text (`get('title','')`
yields `""` when the attribute is missing, so a span without a title is
`some ""`). -/
structure Row where
  dateCell : Option String
  timeCell : Option String
  currencyCell : Option String
  impactCell : Option (Option String × String)
  eventCell : Option String
  actualCell : Option String
  forecastCell : Option String
  previousCell : Option String
  deriving DecidableEq, Repr

/-- The non-date field values accumulated by the fields loop. -/
structure Fields where
  currency : String
  impact : String
  event : String
  actual : String
  forecast : String
  previous : String
  deriving DecidableEq, Repr

/-- One line appended to `forex_factory_catalog.csv`:
`[str(last_valid_date.astimezone(timezone)), currency, impact, event,
actual, forecast, previous]`. -/
structure EventRecord where
  timestamp : DT
  currency : String
  impact : String
  event : String
  actual : String
  forecast : String
  previous : String
  deriving DecidableEq, Repr

/-- Build the appended record from the resolved datetime and fields. -/
def mkRec (targetOff : Int) (d : DT) (fv : Fields) : EventRecord :=
  ⟨astimezoneDT d targetOff, fv.currency, fv.impact, fv.event, fv.actual,
   fv.forecast, fv.previous⟩

/-- What the loop body of `scrap` does with one table row. -/
inductive RowOutcome where
  /-- A record was written to the catalog. -/
  | appended (rec : EventRecord)
  /-- `continue`: the row produced no record. -/
  | skipped
  /-- `break`: a row dated after today ends the window. -/
  | futureBreak
  /-- An exception was caught by the per-row `except` handler. -/
  | rowError
  deriving DecidableEq, Repr

/-- The pure (non-`time`) field assignments of the fields loop: each cell's
stripped text when the selectors found a cell, `''` otherwise; for impact
the span's `title` attribute takes precedence over the cell text. -/
def fieldsOf (row : Row) : Fields :=
  { currency := match row.currencyCell with | some s => pyStrip s | none => ""
    impact := match row.impactCell with
      | some (some t, _) => t
      | some (none, s) => pyStrip s
      | none => ""
    event := match row.eventCell with | some s => pyStrip s | none => ""
    actual := match row.actualCell with | some s => pyStrip s | none => ""
    forecast := match row.forecastCell with | some s => pyStrip s | none => ""
    previous := match row.previousCell with | some s => pyStrip s | none => "" }

/-- The date-cell step of the row handler: a `span.date` cell with
nonempty text is parsed (against the start cursor's year, or the year of
the day after the inherited date) and replaces `last_valid_date`; a parse
failure is logged to the error channel and the old date kept. -/
def dateStep (ffOff : Int) (startYear : Nat) (lv : Option DT) (row : Row) :
    Option DT × List String :=
  match row.dateCell with
  | some s =>
    if pyStrip s ≠ "" then
      let dayStr := removeNL (pyStrip s)
      let year := match lv with
        | none => startYear
        | some d => (addDays { d with hour := 0, minute := 0 } 1).year
      match parseDateLabel year ffOff dayStr with
      | some d => (some d, [])
      | none => (lv, ["Error parsing date: " ++ dayStr])
    else (lv, [])
  | none => (lv, [])

/-- The date-cell step and fields loop of the row handler (everything in
the `try` block before the final four guards).  Returns the updated
`last_valid_date`, the collected field values and the error-channel lines
written so far; `.error` is an exception escaping to the per-row handler
(a bad `int(...)` slice or an out-of-range `replace`), carrying the state
at that point. -/
def runFields (ffOff : Int) (startYear : Nat) (lv : Option DT) (row : Row) :
    Except (Option DT × List String) (Option DT × Fields × List String) :=
  let s1 := dateStep ffOff startYear lv row
  match row.timeCell with
  | some t =>
    if pyStrip t ≠ "" then
      match s1.1 with
      | some d =>
        match resolveTime (pyStrip t) d with
        | .ok d' => .ok (some d', fieldsOf row, s1.2)
        | .error _ => .error (s1.1, s1.2 ++ ["Row error"])
      | none => .ok (s1.1, fieldsOf row, s1.2)
    else .ok (s1.1, fieldsOf row, s1.2)
  | none => .ok (s1.1, fieldsOf row, s1.2)

/-- The four guards at the end of the row handler:
no date → `continue`; seconds equal to 1 → `raise ValueError` (caught and
logged by the per-row handler); resolved datetime not after the session
start → `continue`; wall date after today → `break`; otherwise append the
record. -/
def finishRow (targetOff : Int) (start : DT) (today : CDate) (lv : Option DT)
    (fv : Fields) (log : List String) :
    RowOutcome × Option DT × List String :=
  match lv with
  | none => (.skipped, none, log)
  | some d =>
    if d.second = 1 then
      (.rowError, some d, log ++ ["Error: ValueError for date"])
    else if toSec d ≤ toSec start then (.skipped, some d, log)
    else if cdLt today (dateOf d) then (.futureBreak, some d, log)
    else (.appended (mkRec targetOff d fv), some d, log)

/-- The whole loop body of `scrap` for one table row: the `try` block
(date cell, fields loop) followed by the guards, with any exception
landing in the per-row `except` handler (`.rowError`).  Returns the
outcome, the `last_valid_date` carried to the next row, and the lines
written to the error channel. -/
def processRow (ffOff targetOff : Int) (start : DT) (today : CDate)
    (lv : Option DT) (row : Row) : RowOutcome × Option DT × List String :=
  match runFields ffOff start.year lv row with
  | .error (lv', log) => (.rowError, lv', log)
  | .ok (lv2, fv, log) => finishRow targetOff start today lv2 fv log

/-! ## `dataset_util.py` -/

/-- The condition of `row[0] and all(not field.strip() for field in
row[1:])`: nonempty leading date, every later field blank. -/
def dateOnly (row : List String) : Bool :=
  match row with
  | [] => false
  | r0 :: rest => r0 ≠ "" && rest.all (fun f => pyStrip f = "")

/-- The marking pass of `dataset_util.__main__`: walk the rows with the
`seen` set (here a list of previously kept rows), collecting the indices
to delete.  A fully empty row makes `row[0]` raise `IndexError`
(`.error`). -/
def markPass : Nat → List (List String) → List (List String) →
    Except Unit (List Nat)
  | _, _, [] => .ok []
  | i, seen, row :: rest =>
    if row.isEmpty then .error ()
    else if dateOnly row then (markPass (i + 1) seen rest).map (i :: ·)
    else if row ∈ seen then (markPass (i + 1) seen rest).map (i :: ·)
    else markPass (i + 1) (row :: seen) rest

/-- `dataset_util.delete_multiple_lines`: rewrite the file keeping lines
whose index is not listed; with no listed line the function returns at
once and the file is untouched. -/
def delete_multiple_lines (lines : List (List String)) (lineNumbers : List Nat) :
    List (List String) :=
  if lineNumbers.isEmpty then lines
  else (lines.enum.filterMap fun p => if p.1 ∈ lineNumbers then none else some p.2)

/-- The whole `dataset_util` pass over the dataset's rows. -/
def dataset_dedup (rows : List (List String)) :
    Except Unit (List (List String)) :=
  (markPass 0 [] rows).map (delete_multiple_lines rows)

/-- Reference recursion for what the pass keeps: drop a row when it is
date-only-blank or equal to an already kept row, keep the rest in order. -/
def dedupSpec (seen : List (List String)) : List (List String) →
    List (List String)
  | [] => []
  | row :: rest =>
    if dateOnly row ∨ row ∈ seen then dedupSpec seen rest
    else row :: dedupSpec (row :: seen) rest

/-- Deletion by index with an offset: what `delete_multiple_lines` does to
the suffix of the file starting at line `i`. -/
def deleteFrom (i : Nat) (lines : List (List String)) (ns : List Nat) :
    List (List String) :=
  (List.enumFrom i lines).filterMap fun p => if p.1 ∈ ns then none else some p.2

/-! ## `csv_to_json.py` -/

/-- One JSON object of the converter's output. -/
structure JsonEvent where
  date : String
  country : String
  impact : String
  title : String
  actual : String
  forecast : String
  previous : String
  deriving DecidableEq, Repr

/-- `while len(row) < 7: row.append('')`. -/
def padTo7 (row : List String) : List String :=
  row ++ List.replicate (7 - row.length) ""

/-- The per-row dictionary build: `event[column_name] = row[i].strip()`. -/
def rowToEvent (row : List String) : JsonEvent :=
  let r := padTo7 row
  ⟨pyStrip (r.getD 0 ""), pyStrip (r.getD 1 ""), pyStrip (r.getD 2 ""),
   pyStrip (r.getD 3 ""), pyStrip (r.getD 4 ""), pyStrip (r.getD 5 ""),
   pyStrip (r.getD 6 "")⟩

/-- The reader loop of `csv_to_json`: skip a row that is empty or all
blank, pad short rows, map the seven columns, keep input order. -/
def csv_to_json_rows (rows : List (List String)) : List JsonEvent :=
  rows.filterMap fun row =>
    if row.isEmpty || row.all (fun c => pyStrip c = "") then none
    else some (rowToEvent row)

/-- A row-to-record map written from the specification's words alone:
trim each cell, pad a short row's remaining keys with empty strings, omit
a fully blank row. -/
def specRowToEvent (row : List String) : Option JsonEvent :=
  if row.all (fun c => pyStrip c = "") then none
  else
    let cells := row.map pyStrip ++ List.replicate (7 - row.length) ""
    some ⟨cells.getD 0 "", cells.getD 1 "", cells.getD 2 "", cells.getD 3 "",
          cells.getD 4 "", cells.getD 5 "", cells.getD 6 ""⟩

/-- The converter's file system: csv files hold parsed rows, json files
hold the array of records that was serialized into them. -/
structure ConvFS where
  csvFiles : List (String × List (List String))
  jsonFiles : List (String × List JsonEvent)
  deriving DecidableEq, Repr

/-- `Path.with_suffix('.json')`: replace the extension after the last dot
(or append one). -/
def withJsonSuffix (p : String) : String :=
  let cs := p.data
  if cs.contains '.' then
    ⟨((cs.reverse.dropWhile (· ≠ '.')).drop 1).reverse⟩ ++ ".json"
  else p ++ ".json"

/-- `csv_to_json.csv_to_json(csv_file_path, json_file_path, pretty)`:
raise `FileNotFoundError` when the input path does not exist; otherwise
convert and write the JSON file, returning the new file system and the
output path.  (`pretty` only changes the rendering, not the modelled
content.) -/
def csv_to_json_file (fs : ConvFS) (csvPath : String)
    (jsonPath? : Option String) (_pretty : Bool) :
    Except String (ConvFS × String) :=
  match fs.csvFiles.lookup csvPath with
  | none => .error ("CSV file not found: " ++ csvPath)
  | some rows =>
    let jsonPath := match jsonPath? with
      | none => withJsonSuffix csvPath
      | some p => p
    .ok ({ fs with jsonFiles := (jsonPath, csv_to_json_rows rows) :: fs.jsonFiles },
         jsonPath)

/-- The parsed CLI arguments of `csv_to_json.main`. -/
structure ConvArgs where
  csv_file : String
  output : Option String
  compact : Bool
  deriving DecidableEq, Repr

/-- `csv_to_json.main` after argument parsing: run the conversion; on
`FileNotFoundError` (or any fault) print to stderr and exit 1, else exit 0.
Returns the file system, the exit code and the stderr lines. -/
def main_conv (fs : ConvFS) (args : ConvArgs) : ConvFS × Nat × List String :=
  match csv_to_json_file fs args.csv_file args.output (!args.compact) with
  | .error e => (fs, 1, ["Error: " ++ e])
  | .ok (fs', _) => (fs', 0, [])

/-! ## Calendar arithmetic lemmas -/

set_option maxHeartbeats 1000000 in
theorem dby_succ (y : Nat) (h : 1 ≤ y) :
    dby (y + 1) = dby y + 365 + (if isLeap y then 1 else 0) := by
  simp only [dby, isLeap, Nat.add_sub_cancel]
  split <;> omega

theorem dim_pos (y m : Nat) (h1 : 1 ≤ m) (h2 : m ≤ 12) :
    1 ≤ daysInMonth y m := by
  by_cases hL : isLeap y <;> interval_cases m <;> simp [daysInMonth, hL]

theorem dbm_succ (y m : Nat) (h1 : 1 ≤ m) (h2 : m ≤ 11) :
    daysBeforeMonth y (m + 1) = daysBeforeMonth y m + daysInMonth y m := by
  by_cases hL : isLeap y <;> interval_cases m <;>
    simp [daysBeforeMonth, daysBeforeMonthTable, daysInMonth, hL]

theorem ord_succDay (d : DT) (hv : ValidDT d) :
    toOrd (succDay d) = toOrd d + 1 := by
  obtain ⟨hy, hm1, hm2, hd1, hd2⟩ := hv
  unfold succDay
  split
  · simp [toOrd]; omega
  · split
    · rename_i hlt hm12
      have hday : d.day = daysInMonth d.year d.month := by omega
      have hstep := dbm_succ d.year d.month hm1 (by omega)
      simp only [toOrd]
      omega
    · rename_i hlt hm12
      have hm : d.month = 12 := by omega
      have h31 : daysInMonth d.year d.month = 31 := by
        rw [hm]; simp [daysInMonth]
      have hday : d.day = 31 := by omega
      have h365 := dby_succ d.year hy
      have hb1 : daysBeforeMonth (d.year + 1) 1 = 0 := by
        simp [daysBeforeMonth, daysBeforeMonthTable]
      have hb12 : daysBeforeMonth d.year 12 =
          334 + (if isLeap d.year then 1 else 0) := by
        simp [daysBeforeMonth, daysBeforeMonthTable]
      simp only [toOrd, hm]
      by_cases hL : isLeap d.year <;> simp [hL] at h365 hb12 ⊢ <;> omega

theorem valid_succDay (d : DT) (hv : ValidDT d) : ValidDT (succDay d) := by
  obtain ⟨hy, hm1, hm2, hd1, hd2⟩ := hv
  unfold succDay
  split
  · rename_i hlt
    exact ⟨hy, hm1, hm2, Nat.succ_le_succ (Nat.zero_le _), hlt⟩
  · split
    · rename_i hlt hm12
      exact ⟨hy, Nat.succ_le_succ (Nat.zero_le _), hm12, Nat.le_refl 1,
        dim_pos d.year (d.month + 1) (Nat.succ_le_succ (Nat.zero_le _)) hm12⟩
    · exact ⟨Nat.succ_le_succ (Nat.zero_le _), Nat.le_refl 1,
        show (1 : Nat) ≤ 12 by decide, Nat.le_refl 1,
        dim_pos (d.year + 1) 1 (Nat.le_refl 1) (show (1 : Nat) ≤ 12 by decide)⟩

theorem succDay_time (d : DT) : (succDay d).hour = d.hour ∧
    (succDay d).minute = d.minute ∧ (succDay d).second = d.second ∧
    (succDay d).off = d.off := by
  unfold succDay
  split
  · exact ⟨rfl, rfl, rfl, rfl⟩
  · split
    · exact ⟨rfl, rfl, rfl, rfl⟩
    · exact ⟨rfl, rfl, rfl, rfl⟩

theorem ord_addDays (d : DT) (n : Nat) (hv : ValidDT d) :
    toOrd (addDays d n) = toOrd d + n ∧ ValidDT (addDays d n) := by
  induction n with
  | zero => exact ⟨rfl, hv⟩
  | succ k ih =>
    refine ⟨?_, valid_succDay _ ih.2⟩
    have := ord_succDay (addDays d k) ih.2
    simp only [addDays]
    omega

theorem addDays_time (d : DT) (n : Nat) : (addDays d n).hour = d.hour ∧
    (addDays d n).minute = d.minute ∧ (addDays d n).second = d.second ∧
    (addDays d n).off = d.off := by
  induction n with
  | zero => exact ⟨rfl, rfl, rfl, rfl⟩
  | succ k ih =>
    have h := succDay_time (addDays d k)
    exact ⟨h.1.trans ih.1, h.2.1.trans ih.2.1, h.2.2.1.trans ih.2.2.1,
      h.2.2.2.trans ih.2.2.2⟩

theorem predDay_time (d : DT) : (predDay d).hour = d.hour ∧
    (predDay d).minute = d.minute ∧ (predDay d).second = d.second ∧
    (predDay d).off = d.off := by
  unfold predDay
  split
  · exact ⟨rfl, rfl, rfl, rfl⟩
  · split
    · exact ⟨rfl, rfl, rfl, rfl⟩
    · exact ⟨rfl, rfl, rfl, rfl⟩

theorem ord_predDay (d : DT) (hv : ValidDT d) (hy2 : 2 ≤ d.year) :
    toOrd (predDay d) + 1 = toOrd d := by
  obtain ⟨hy, hm1, hm2, hd1, hd2⟩ := hv
  unfold predDay
  split
  · simp only [toOrd]; omega
  · split
    · rename_i hds hms
      have hmm : d.month - 1 + 1 = d.month := by omega
      have hstep := dbm_succ d.year (d.month - 1) (by omega) (by omega)
      rw [hmm] at hstep
      simp only [toOrd]
      omega
    · rename_i hds hms
      have hmon : d.month = 1 := by omega
      have hday : d.day = 1 := by omega
      have hyy : d.year - 1 + 1 = d.year := by omega
      have h365 := dby_succ (d.year - 1) (by omega)
      rw [hyy] at h365
      have hb12 : daysBeforeMonth (d.year - 1) 12 =
          334 + (if isLeap (d.year - 1) then 1 else 0) := by
        simp [daysBeforeMonth, daysBeforeMonthTable]
      have hb1 : daysBeforeMonth d.year d.month = 0 := by
        rw [hmon]; simp [daysBeforeMonth, daysBeforeMonthTable]
      simp only [toOrd]
      by_cases hL : isLeap (d.year - 1) <;> simp [hL] at h365 hb12 <;> omega

theorem toOrd_setHM (x : DT) (h mi : Nat) (o : Int) :
    toOrd { x with hour := h, minute := mi, off := o } = toOrd x := rfl

theorem toSec_setHM (x : DT) (h mi : Nat) (o : Int) :
    toSec { x with hour := h, minute := mi, off := o } =
      (toOrd x : Int) * 86400 + h * 3600 + mi * 60 + x.second - o * 60 := rfl

/-- `astimezone` to a fixed offset within a day of the original offset
denotes the same instant. -/
theorem astimezone_toSec (d : DT) (o : Int) (hv : ValidDT d) (hy2 : 2 ≤ d.year)
    (hh : d.hour ≤ 23) (hm : d.minute ≤ 59) (hlo : -1440 < o - d.off)
    (hhi : o - d.off < 1440) :
    toSec (astimezoneDT d o) = toSec d := by
  have hpred := ord_predDay d hv hy2
  have hsucc := ord_succDay d hv
  have hps := (predDay_time d).2.2.1
  have hss := (succDay_time d).2.2.1
  simp only [astimezoneDT]
  split
  · rename_i hneg
    rw [toSec_setHM, hps]
    simp only [toSec]
    omega
  · split
    · rename_i hneg hmid
      rw [toSec_setHM]
      simp only [toSec]
      omega
    · rename_i hneg hmid
      rw [toSec_setHM, hss]
      simp only [toSec]
      omega

/-- `astimezone` between whole-minute offsets keeps the seconds field. -/
theorem astimezone_second (d : DT) (o : Int) :
    (astimezoneDT d o).second = d.second := by
  simp only [astimezoneDT]
  split
  · exact (predDay_time d).2.2.1
  · split
    · rfl
    · exact (succDay_time d).2.2.1

/-! ## Row-handler lemmas -/

theorem finishRow_appended (t : Int) (s : DT) (td : CDate) (lv : Option DT)
    (fv : Fields) (log0 : List String) (rec : EventRecord) (st : Option DT)
    (log : List String)
    (h : finishRow t s td lv fv log0 = (.appended rec, st, log)) :
    ∃ d, lv = some d ∧ st = some d ∧ rec = mkRec t d fv ∧ d.second ≠ 1 ∧
      toSec s < toSec d ∧ cdLt td (dateOf d) = false ∧ log = log0 := by
  cases lv with
  | none => simp [finishRow] at h
  | some d =>
    simp only [finishRow] at h
    split_ifs at h with h1 h2 h3
    · simp at h
    · simp at h
    · simp at h
    · simp only [Prod.mk.injEq, RowOutcome.appended.injEq] at h
      exact ⟨d, rfl, h.2.1.symm, h.1.symm, h1, by omega,
        by simpa using h3, h.2.2.symm⟩

theorem finishRow_second (t : Int) (s : DT) (td : CDate) (lv : Option DT)
    (fv : Fields) (log0 : List String) (out : RowOutcome) (d : DT)
    (log : List String)
    (h : finishRow t s td lv fv log0 = (out, some d, log)) (hs : d.second = 1) :
    out = .rowError ∧ log ≠ [] := by
  cases lv with
  | none => simp [finishRow] at h
  | some d' =>
    simp only [finishRow] at h
    split_ifs at h with h1 h2 h3 <;>
      simp only [Prod.mk.injEq, Option.some.injEq] at h
    · exact ⟨h.1.symm, by simp [← h.2.2]⟩
    · exact absurd (h.2.1 ▸ hs) h1
    · exact absurd (h.2.1 ▸ hs) h1
    · exact absurd (h.2.1 ▸ hs) h1

theorem finishRow_future (t : Int) (s : DT) (td : CDate) (d : DT) (fv : Fields)
    (log0 : List String) (h1 : d.second ≠ 1) (h2 : toSec s < toSec d)
    (h3 : cdLt td (dateOf d) = true) :
    finishRow t s td (some d) fv log0 = (.futureBreak, some d, log0) := by
  simp only [finishRow]
  rw [if_neg h1, if_neg (by omega), if_pos h3]

theorem runFields_error (ffOff : Int) (sy : Nat) (lv : Option DT) (row : Row)
    (lv' : Option DT) (log : List String)
    (h : runFields ffOff sy lv row = .error (lv', log)) : log ≠ [] := by
  simp only [runFields] at h
  split at h
  · split at h
    · split at h
      · split at h
        · simp at h
        · simp only [Except.error.injEq, Prod.mk.injEq] at h
          simp [← h.2]
      · simp at h
    · simp at h
  · simp at h

theorem processRow_appended (ffOff tOff : Int) (start : DT) (today : CDate)
    (lv : Option DT) (row : Row) (rec : EventRecord) (st : Option DT)
    (log : List String)
    (h : processRow ffOff tOff start today lv row = (.appended rec, st, log)) :
    ∃ d fv, st = some d ∧ rec = mkRec tOff d fv ∧ d.second ≠ 1 ∧
      toSec start < toSec d ∧ cdLt today (dateOf d) = false := by
  unfold processRow at h
  cases hrf : runFields ffOff start.year lv row with
  | error p =>
    rw [hrf] at h
    simp at h
  | ok p =>
    rw [hrf] at h
    obtain ⟨lv2, fv, log0⟩ := p
    obtain ⟨d, _, hst, hrec, hs, hlt, hcd, _⟩ :=
      finishRow_appended tOff start today lv2 fv log0 rec st log h
    exact ⟨d, fv, hst, hrec, hs, hlt, hcd⟩

theorem processRow_second (ffOff tOff : Int) (start : DT) (today : CDate)
    (lv : Option DT) (row : Row) (out : RowOutcome) (d : DT)
    (log : List String)
    (h : processRow ffOff tOff start today lv row = (out, some d, log))
    (hs : d.second = 1) : out = .rowError ∧ log ≠ [] := by
  unfold processRow at h
  cases hrf : runFields ffOff start.year lv row with
  | error p =>
    rw [hrf] at h
    obtain ⟨lv', log'⟩ := p
    simp only [Prod.mk.injEq] at h
    exact ⟨h.1.symm, h.2.2 ▸ runFields_error ffOff start.year lv row lv' log' hrf⟩
  | ok p =>
    rw [hrf] at h
    obtain ⟨lv2, fv, log0⟩ := p
    exact finishRow_second tOff start today lv2 fv log0 out d log h hs

/-- Key step for strict progress of the month granularity: the ordinal of
the first of the following month is strictly larger. -/
theorem month_step_lt (y m : Nat) (hy : 1 ≤ y) (hm1 : 1 ≤ m) (hm2 : m ≤ 12) :
    dby y + daysBeforeMonth y m + 1 <
      dby (y + m / 12) + daysBeforeMonth (y + m / 12) (m % 12 + 1) + 1 := by
  by_cases h12 : m = 12
  · subst h12
    have h365 := dby_succ y hy
    have hb12 : daysBeforeMonth y 12 = 334 + (if isLeap y then 1 else 0) := by
      simp [daysBeforeMonth, daysBeforeMonthTable]
    have hb1 : daysBeforeMonth (y + 1) 1 = 0 := by
      simp [daysBeforeMonth, daysBeforeMonthTable]
    norm_num
    by_cases hL : isLeap y <;> simp [hL] at h365 hb12 <;> omega
  · have hlt : m ≤ 11 := by omega
    have hdiv : m / 12 = 0 := by omega
    have hmod : m % 12 = m := by omega
    simp only [hdiv, hmod, Nat.add_zero]
    have hstep := dbm_succ y m hm1 hlt
    have hpos := dim_pos y m hm1 hm2
    omega

/-- Strict progress shared by the day and week granularities. -/
theorem addDays_toSec_lt (x0 c1 : DT) (n : Nat) (hn : 1 ≤ n) (hv0 : ValidDT x0)
    (hh : x0.hour = 0) (hm : x0.minute = 0) (hc1 : c1 = addDays x0 n) :
    toSec c1 < toSec (addDays { c1 with hour := 0, minute := 0 } n) := by
  obtain ⟨ho1, hv1⟩ := ord_addDays x0 n hv0
  rw [← hc1] at ho1 hv1
  have hv1x : ValidDT ({ c1 with hour := 0, minute := 0 } : DT) := hv1
  obtain ⟨ho2, _⟩ := ord_addDays { c1 with hour := 0, minute := 0 } n hv1x
  have ht1 := addDays_time x0 n
  rw [← hc1] at ht1
  have ht2 := addDays_time ({ c1 with hour := 0, minute := 0 } : DT) n
  have he1 : toOrd ({ c1 with hour := 0, minute := 0 } : DT) = toOrd c1 := rfl
  have he2 : ({ c1 with hour := 0, minute := 0 } : DT).second = c1.second := rfl
  have he3 : ({ c1 with hour := 0, minute := 0 } : DT).off = c1.off := rfl
  have he4 : ({ c1 with hour := 0, minute := 0 } : DT).hour = 0 := rfl
  have he5 : ({ c1 with hour := 0, minute := 0 } : DT).minute = 0 := rfl
  simp only [toSec]
  omega

/-! ## scanBack characterization -/

theorem scanBack_eq_none (content : List Char) (pos rem : Nat)
    (h : ∀ k, k < rem → content.getD (pos - k) ' ' ≠ '\n') :
    scanBack content pos rem = none := by
  induction rem generalizing pos with
  | zero => rfl
  | succ r ih =>
    simp only [scanBack]
    rw [if_neg (by simpa using h 0 (by omega))]
    refine ih (pos - 1) (fun k hk => ?_)
    have hx : pos - 1 - k = pos - (k + 1) := by omega
    rw [hx]
    exact h (k + 1) (by omega)

theorem scanBack_eq_some (content : List Char) (pos rem p : Nat)
    (hp : content.getD p ' ' = '\n') (hple : p ≤ pos) (hrange : pos - p < rem)
    (habove : ∀ q, p < q → q ≤ pos → content.getD q ' ' ≠ '\n') :
    scanBack content pos rem = some p := by
  induction rem generalizing pos with
  | zero => omega
  | succ r ih =>
    simp only [scanBack]
    by_cases he : pos = p
    · subst he; rw [if_pos hp]
    · rw [if_neg (habove pos (by omega) (by omega))]
      exact ih (pos - 1) (by omega) (by omega)
        (fun q h1 h2 => habove q h1 (by omega))

/-! ## Claim theorems -/

/-- C1 (amended): for every parse function standing in for the running
CPython's `datetime.fromisoformat`: `get_start_dt` returns the 2007 epoch
fallback when no dataset exists; when the file is at most two bytes it
returns the fallback leaving the file alone; when no newline occurs at
the scanned byte positions 1 .. length-2 it truncates the file to empty
and returns the fallback (even when the file consists of one complete,
parseable record line); and when the scan finds the last newline in that
range, the 25 bytes after it go to `fromisoformat`: on success (the
scraper's own fixed-width zoned form, or any shorter prefix the running
version accepts, such as a bare-date tail giving a naive datetime) the
parsed value is the resume cursor and the file is untouched; on failure a
`ValueError` propagates — the malformed tail is never truncated. -/
theorem claim_resume_point_amended (parse : List Char → Option PyDT)
    (tz : Int) (content : List Char) :
    (get_start_dt parse none tz = .ok (fallbackPy tz, none)) ∧
    (content.length ≤ 2 →
      get_start_dt parse (some content) tz =
        .ok (fallbackPy tz, some content)) ∧
    (2 < content.length →
      (∀ q < content.length, 1 ≤ q → q ≤ content.length - 2 →
        content.getD q ' ' ≠ '\n') →
      get_start_dt parse (some content) tz = .ok (fallbackPy tz, some [])) ∧
    (∀ p, 2 < content.length → 1 ≤ p → p ≤ content.length - 2 →
      content.getD p ' ' = '\n' →
      (∀ q < content.length, p < q → q ≤ content.length - 2 →
        content.getD q ' ' ≠ '\n') →
      match parse ((takeLine (content.drop (p + 1))).take 25) with
      | some dt => get_start_dt parse (some content) tz = .ok (dt, some content)
      | none => get_start_dt parse (some content) tz =
          .error "ValueError: Invalid isoformat string") := by
  refine ⟨rfl, ?_, ?_, ?_⟩
  · intro h
    simp only [get_start_dt]
    rw [if_neg (by omega)]
  · intro hlen hno
    have hsb := scanBack_eq_none content (content.length - 2)
      (content.length - 2)
      (fun k hk => hno (content.length - 2 - k) (by omega) (by omega) (by omega))
    simp only [get_start_dt]
    rw [if_pos (by omega), hsb]
  · intro p hlen hp1 hp2 hpn habove
    have hsb := scanBack_eq_some content (content.length - 2)
      (content.length - 2) p hpn (by omega) (by omega)
      (fun q h1 h2 => habove q (by omega) h1 (by omega))
    cases hpi : parse ((takeLine (content.drop (p + 1))).take 25) with
    | some dt =>
      simp only [get_start_dt]
      rw [if_pos (by omega), hsb]
      simp only [hpi]
    | none =>
      simp only [get_start_dt]
      rw [if_pos (by omega), hsb]
      simp only [hpi]

/-- A dataset consisting of exactly one complete, parseable record line. -/
def singleLineCatalog : List Char := "2024-01-01 00:00:00-05:00,US\n".data

/-- A dataset whose final line (after the last scanned newline) is not a
timestamp (rejected by `fromisoformat` in every CPython version). -/
def garbageTailCatalog : List Char :=
  "2024-01-01 00:00:00-05:00,US\ngarbage line\n".data

/-- A dataset whose trailing partial line is a bare date — a prefix
`fromisoformat` accepts in every CPython version, as a naive datetime. -/
def truncatedTailCatalog : List Char :=
  "2024-01-01 00:00:00-05:00,US\n2024-01-02".data

/-- A well-formed two-record dataset. -/
def goodCatalog : List Char :=
  "2024-01-01 00:00:00-05:00,US\n2024-01-02 07:30:00-05:00,EU\n".data

/-- C1 counterexample: (i) on a dataset holding exactly one complete,
parseable record line, the scan finds no preceding newline, so the code
truncates the whole well-formed file and returns the fallback instead of
that line's timestamp; (ii) on a dataset whose trailing line is
unparseable, `datetime.fromisoformat` raises `ValueError` instead of
truncating and falling back; (iii) on a dataset whose trailing partial
line is a bare date, the code neither truncates nor falls back: it returns
a naive datetime as the cursor with the file untouched. -/
theorem claim_resume_point_cex :
    get_start_dt pyFromIso (some singleLineCatalog) (-300) =
      .ok (fallbackPy (-300), some []) ∧
    pyFromIso (singleLineCatalog.take 25) =
      some ⟨2024, 1, 1, 0, 0, 0, 0, some (-18000)⟩ ∧
    fallbackPy (-300) ≠ (⟨2024, 1, 1, 0, 0, 0, 0, some (-18000)⟩ : PyDT) ∧
    get_start_dt pyFromIso (some garbageTailCatalog) (-300) =
      .error "ValueError: Invalid isoformat string" ∧
    get_start_dt pyFromIso (some truncatedTailCatalog) (-300) =
      .ok (⟨2024, 1, 2, 0, 0, 0, 0, none⟩, some truncatedTailCatalog) :=
  ⟨by decide, by decide, by decide, by decide, by decide⟩

/-- C1 witness: on a two-record dataset the amended theorem returns the
final record's parsed timestamp and leaves the file untouched. -/
theorem claim_resume_point_amended_witness :
    get_start_dt pyFromIso (some goodCatalog) (-300) =
      .ok (⟨2024, 1, 2, 7, 30, 0, 0, some (-18000)⟩, some goodCatalog) :=
  (claim_resume_point_amended pyFromIso (-300) goodCatalog).2.2.2 28
    (by decide) (by decide) (by decide) (by decide) (by decide)

/-- C2: a row whose resolved datetime is not strictly after the session's
start cursor is skipped (when it reaches that guard), and a record is
appended only when its resolved datetime is strictly after the start
cursor — hence the persisted timestamp (the same instant re-expressed in
the target zone) is also strictly after the start cursor. -/
theorem claim_no_stale_append :
    (∀ (targetOff : Int) (start : DT) (today : CDate) (d : DT) (fv : Fields)
       (log0 : List String), d.second ≠ 1 → toSec d ≤ toSec start →
       finishRow targetOff start today (some d) fv log0 =
         (.skipped, some d, log0)) ∧
    (∀ (ffOff targetOff : Int) (start : DT) (today : CDate) (lv : Option DT)
       (row : Row) (rec : EventRecord) (d : DT) (log : List String),
       processRow ffOff targetOff start today lv row =
         (.appended rec, some d, log) →
       ValidDT d → 2 ≤ d.year → d.hour ≤ 23 → d.minute ≤ 59 →
       -1440 < targetOff - d.off → targetOff - d.off < 1440 →
       toSec start < toSec d ∧ toSec start < toSec rec.timestamp) := by
  constructor
  · intro targetOff start today d fv log0 h1 h2
    simp only [finishRow]
    rw [if_neg h1, if_pos h2]
  · intro ffOff targetOff start today lv row rec d log h hv hy2 hh hm hlo hhi
    obtain ⟨d', fv, hst, hrec, _, hlt, _⟩ :=
      processRow_appended ffOff targetOff start today lv row rec (some d) log h
    cases Option.some.inj hst
    have hts : rec.timestamp = astimezoneDT d targetOff := by
      rw [hrec]; exact rfl
    rw [hts, astimezone_toSec d targetOff hv hy2 hh hm hlo hhi]
    exact ⟨hlt, hlt⟩

/-- A concrete row that gets appended (used to instantiate the C2 claim). -/
def sampleRow : Row :=
  ⟨some "Tue Jan 2", some "7:30am", some "USD", some (some "High Impact", "x"),
   some "NFP", some "5", some "4", some "3"⟩

/-- C2 witness at a concrete appending run. -/
theorem claim_no_stale_append_witness :
    toSec (fallback2007 (-300)) < toSec (⟨2007, 1, 2, 7, 30, 0, -300⟩ : DT) ∧
    toSec (fallback2007 (-300)) <
      toSec (EventRecord.timestamp
        ⟨⟨2007, 1, 2, 7, 30, 0, -300⟩, "USD", "High Impact", "NFP", "5", "4", "3"⟩) :=
  claim_no_stale_append.2 (-300) (-300) (fallback2007 (-300)) ⟨2024, 1, 5⟩ none
    sampleRow
    ⟨⟨2007, 1, 2, 7, 30, 0, -300⟩, "USD", "High Impact", "NFP", "5", "4", "3"⟩
    ⟨2007, 1, 2, 7, 30, 0, -300⟩ [] (by decide) (by decide) (by decide)
    (by decide) (by decide) (by decide) (by decide)

/-- C4: time-field resolution: a token containing `Day` maps to 23:59:59;
otherwise one containing `Data` maps to 00:00:01; otherwise a well-formed
12-hour token parses, seconds forced to 0 — `7:30am` to 07:30:00 and
`7:30pm` to 19:30:00. -/
theorem claim_time_resolution :
    (∀ t d, substrIn "Day".data t.data = true →
       resolveTime t d = .ok { d with hour := 23, minute := 59, second := 59 }) ∧
    (∀ t d, substrIn "Day".data t.data = false →
       substrIn "Data".data t.data = true →
       resolveTime t d = .ok { d with hour := 0, minute := 0, second := 1 }) ∧
    (∀ d, resolveTime "7:30am" d =
       .ok { d with hour := 7, minute := 30, second := 0 }) ∧
    (∀ d, resolveTime "7:30pm" d =
       .ok { d with hour := 19, minute := 30, second := 0 }) := by
  refine ⟨?_, ?_, ?_, ?_⟩
  · intro t d h; simp [resolveTime, h]
  · intro t d h1 h2; simp [resolveTime, h1, h2]
  · intro d; rfl
  · intro d; rfl

/-- C4 witness at a concrete `All Day` token. -/
theorem claim_time_resolution_witness :
    resolveTime "All Day" ⟨2007, 1, 2, 0, 0, 0, -300⟩ =
      .ok ⟨2007, 1, 2, 23, 59, 59, -300⟩ :=
  claim_time_resolution.1 "All Day" ⟨2007, 1, 2, 0, 0, 0, -300⟩ (by decide)

/-- C5: a row whose time token resolves to 00:00:01 (the `Data` mapping)
raises `ValueError` before the append, which the per-row handler catches
and logs; consequently no appended record's timestamp carries a seconds
component of 1. -/
theorem claim_tentative_never_persisted :
    (∀ t d, substrIn "Day".data (pyStrip t).data = false →
       substrIn "Data".data (pyStrip t).data = true →
       resolveTime (pyStrip t) d =
         .ok { d with hour := 0, minute := 0, second := 1 }) ∧
    (∀ ffOff targetOff start today lv row out d log,
       processRow ffOff targetOff start today lv row = (out, some d, log) →
       d.second = 1 → out = .rowError ∧ log ≠ []) ∧
    (∀ ffOff targetOff start today lv row rec st log,
       processRow ffOff targetOff start today lv row = (.appended rec, st, log) →
       rec.timestamp.second ≠ 1) := by
  refine ⟨?_, ?_, ?_⟩
  · intro t d h1 h2; simp [resolveTime, h1, h2]
  · intro ffOff targetOff start today lv row out d log h hs
    exact processRow_second ffOff targetOff start today lv row out d log h hs
  · intro ffOff targetOff start today lv row rec st log h
    obtain ⟨d, fv, hst, hrec, hs, _, _⟩ :=
      processRow_appended ffOff targetOff start today lv row rec st log h
    rw [hrec]
    show (astimezoneDT d targetOff).second ≠ 1
    rw [astimezone_second]
    exact hs

/-- A concrete `Tentative`-style row (time token containing `Data`). -/
def tentativeRow : Row :=
  ⟨some "Tue Jan 2", some "Data", none, none, none, none, none, none⟩

/-- C5 witness: a concrete `Data` row ends in the per-row error handler
with a line on the error channel. -/
theorem claim_tentative_never_persisted_witness :
    RowOutcome.rowError = RowOutcome.rowError ∧
    (["Error: ValueError for date"] : List String) ≠ [] :=
  claim_tentative_never_persisted.2.1 (-300) (-300) (fallback2007 (-300))
    ⟨2024, 1, 5⟩ none tentativeRow .rowError ⟨2007, 1, 2, 0, 0, 1, -300⟩
    ["Error: ValueError for date"] (by decide) (by decide)

/-- C3 (amended): the cutoff compares calendar dates, not instants: a row
is never appended when its resolved wall-clock date (display zone) is
after today's date (target zone), and a row passing the earlier guards
with such a date ends the window with `break`; a same-date row whose
instant lies after the current moment may still be appended. -/
theorem claim_future_cutoff_amended :
    (∀ ffOff targetOff start today lv row rec st log,
       processRow ffOff targetOff start today lv row =
         (RowOutcome.appended rec, st, log) →
       ∃ d, st = some d ∧ cdLt today (dateOf d) = false) ∧
    (∀ targetOff start today d fv log0, d.second ≠ 1 →
       toSec start < toSec d → cdLt today (dateOf d) = true →
       finishRow targetOff start today (some d) fv log0 =
         (.futureBreak, some d, log0)) := by
  constructor
  · intro ffOff targetOff start today lv row rec st log h
    obtain ⟨d, fv, hst, _, _, _, hcd⟩ :=
      processRow_appended ffOff targetOff start today lv row rec st log h
    exact ⟨d, hst, hcd⟩
  · intro targetOff start today d fv log0 h1 h2 h3
    exact finishRow_future targetOff start today d fv log0 h1 h2 h3

/-- The moment "now" of the C3 counterexample: 2024-01-01 00:30 in the
target zone, so `today = (2024, 1, 1)`. -/
def cexNow : DT := ⟨2024, 1, 1, 0, 30, 0, -300⟩

/-- The session cursor of the C3 counterexample. -/
def cexStart : DT := ⟨2024, 1, 1, 0, 0, 0, -300⟩

/-- The row of the C3 counterexample: inherits the date label
`Mon Jan 1` and the time `11:59pm`. -/
def cexRow : Row :=
  ⟨some "Mon Jan 1", some "11:59pm", none, none, none, none, none, none⟩

/-- C3 counterexample: with "now" at 2024-01-01 00:30 (target zone), a row
resolving to 2024-01-01 23:59 — an instant strictly after "now" — is
appended to the dataset instead of stopping the window unpersisted. -/
theorem claim_future_cutoff_cex :
    processRow (-300) (-300) cexStart (dateOf cexNow) none cexRow =
      (.appended ⟨⟨2024, 1, 1, 23, 59, 0, -300⟩, "", "", "", "", "", ""⟩,
       some ⟨2024, 1, 1, 23, 59, 0, -300⟩, []) ∧
    toSec cexNow <
      toSec (EventRecord.timestamp
        ⟨⟨2024, 1, 1, 23, 59, 0, -300⟩, "", "", "", "", "", ""⟩) :=
  ⟨by decide, by decide⟩

/-- C3 witness: a concrete future-dated row stops the window. -/
theorem claim_future_cutoff_amended_witness :
    finishRow (-300) cexStart (dateOf cexNow) (some ⟨2024, 1, 2, 10, 0, 0, -300⟩)
      ⟨"", "", "", "", "", ""⟩ [] =
      (.futureBreak, some ⟨2024, 1, 2, 10, 0, 0, -300⟩, []) :=
  claim_future_cutoff_amended.2 (-300) cexStart (dateOf cexNow)
    ⟨2024, 1, 2, 10, 0, 0, -300⟩ ⟨"", "", "", "", "", ""⟩ []
    (by decide) (by decide) (by decide)

/-- C6: the next-cursor computation: month granularity moves to day 1 of
the next month with hour and minute cleared; week adds 7 days clearing
hour and minute; day adds 1 day clearing hour and minute; any other
granularity fails with `ValueError`. -/
theorem claim_next_cursor (c : DT) (hv : ValidDT c) :
    (∃ r, get_next_dt c "month" = .ok r ∧ r.day = 1 ∧ r.hour = 0 ∧
       r.minute = 0 ∧
       ((c.month = 12 ∧ r.year = c.year + 1 ∧ r.month = 1) ∨
        (c.month < 12 ∧ r.year = c.year ∧ r.month = c.month + 1))) ∧
    (∃ r, get_next_dt c "week" = .ok r ∧ toOrd r = toOrd c + 7 ∧
       r.hour = 0 ∧ r.minute = 0) ∧
    (∃ r, get_next_dt c "day" = .ok r ∧ toOrd r = toOrd c + 1 ∧
       r.hour = 0 ∧ r.minute = 0) ∧
    (∀ m, m ≠ "month" → m ≠ "week" → m ≠ "day" →
       ∃ e, get_next_dt c m = .error e) := by
  obtain ⟨hy, hm1, hm2, hd1, hd2⟩ := hv
  refine ⟨⟨_, rfl, rfl, rfl, rfl, ?_⟩, ⟨_, rfl, ?_, ?_, ?_⟩,
    ⟨_, rfl, ?_, ?_, ?_⟩, ?_⟩
  · by_cases h12 : c.month = 12
    · exact Or.inl ⟨h12, show c.year + c.month / 12 = c.year + 1 by omega,
        show c.month % 12 + 1 = 1 by omega⟩
    · exact Or.inr ⟨by omega, show c.year + c.month / 12 = c.year by omega,
        show c.month % 12 + 1 = c.month + 1 by omega⟩
  · exact (ord_addDays { c with hour := 0, minute := 0 } 7
      ⟨hy, hm1, hm2, hd1, hd2⟩).1
  · exact (addDays_time { c with hour := 0, minute := 0 } 7).1
  · exact (addDays_time { c with hour := 0, minute := 0 } 7).2.1
  · exact (ord_addDays { c with hour := 0, minute := 0 } 1
      ⟨hy, hm1, hm2, hd1, hd2⟩).1
  · exact (addDays_time { c with hour := 0, minute := 0 } 1).1
  · exact (addDays_time { c with hour := 0, minute := 0 } 1).2.1
  · intro m h1 h2 h3
    refine ⟨m ++ " is not a proper mode; please use month, week, or day.", ?_⟩
    simp only [get_next_dt]
    rw [if_neg h1, if_neg h2, if_neg h3]

/-- C6 witness at a concrete mid-month cursor. -/
theorem claim_next_cursor_witness :
    ∃ r, get_next_dt ⟨2024, 1, 15, 10, 30, 0, -300⟩ "week" = .ok r ∧
      toOrd r = toOrd ⟨2024, 1, 15, 10, 30, 0, -300⟩ + 7 ∧
      r.hour = 0 ∧ r.minute = 0 :=
  (claim_next_cursor ⟨2024, 1, 15, 10, 30, 0, -300⟩ (by decide)).2.1

/-- C7: strict forward progress: for each of the three granularities,
applying the next-cursor computation twice lands strictly after applying
it once. -/
theorem claim_strict_progress (c : DT) (g : String) (hv : ValidDT c)
    (hg : g = "day" ∨ g = "week" ∨ g = "month") :
    ∃ c1 c2, get_next_dt c g = .ok c1 ∧ get_next_dt c1 g = .ok c2 ∧
      toSec c1 < toSec c2 := by
  have hv0 : ValidDT ({ c with hour := 0, minute := 0 } : DT) := hv
  obtain ⟨hy, hm1, hm2, hd1, hd2⟩ := hv
  rcases hg with hg | hg | hg <;> subst hg
  · refine ⟨_, _, rfl, rfl, ?_⟩
    exact addDays_toSec_lt { c with hour := 0, minute := 0 } _ 1
      (Nat.le_refl 1) hv0 rfl rfl rfl
  · refine ⟨_, _, rfl, rfl, ?_⟩
    exact addDays_toSec_lt { c with hour := 0, minute := 0 } _ 7
      (by omega) hv0 rfl rfl rfl
  · refine ⟨_, _, rfl, rfl, ?_⟩
    have h := month_step_lt (c.year + c.month / 12) (c.month % 12 + 1)
      (by omega) (by omega) (by omega)
    simp only [toSec, toOrd]
    omega

/-- C7 witness at a concrete cursor, month granularity. -/
theorem claim_strict_progress_witness :
    ∃ c1 c2, get_next_dt ⟨2024, 12, 31, 8, 15, 0, -300⟩ "month" = .ok c1 ∧
      get_next_dt c1 "month" = .ok c2 ∧ toSec c1 < toSec c2 :=
  claim_strict_progress ⟨2024, 12, 31, 8, 15, 0, -300⟩ "month" (by decide)
    (Or.inr (Or.inr rfl))

/-! ## dataset_util lemmas -/

theorem neNil_isEmpty {α : Type} (l : List α) (h : l ≠ []) :
    l.isEmpty = false := by
  cases l
  · exact absurd rfl h
  · rfl

theorem mark_lb (l : List (List String)) : ∀ i seen ns,
    markPass i seen l = .ok ns → ∀ n ∈ ns, i ≤ n := by
  induction l with
  | nil =>
    intro i seen ns h n hn
    cases h
    simp at hn
  | cons row rest ih =>
    intro i seen ns h n hn
    simp only [markPass] at h
    split at h
    · simp at h
    · split at h
      · cases hm : markPass (i + 1) seen rest with
        | error e => rw [hm] at h; simp [Except.map] at h
        | ok ns' =>
          rw [hm] at h
          simp only [Except.map] at h
          cases h
          rcases List.mem_cons.mp hn with rfl | hn'
          · exact Nat.le_refl n
          · exact Nat.le_of_succ_le (ih (i + 1) seen ns' hm n hn')
      · split at h
        · cases hm : markPass (i + 1) seen rest with
          | error e => rw [hm] at h; simp [Except.map] at h
          | ok ns' =>
            rw [hm] at h
            simp only [Except.map] at h
            cases h
            rcases List.mem_cons.mp hn with rfl | hn'
            · exact Nat.le_refl n
            · exact Nat.le_of_succ_le (ih (i + 1) seen ns' hm n hn')
        · exact Nat.le_of_succ_le (ih (i + 1) (row :: seen) ns h n hn)

theorem markPass_ok (l : List (List String)) : ∀ i seen, [] ∉ l →
    ∃ ns, markPass i seen l = .ok ns := by
  induction l with
  | nil => intro i seen _; exact ⟨[], rfl⟩
  | cons row rest ih =>
    intro i seen hne
    have hrow : row ≠ [] := fun hr => hne (hr ▸ List.mem_cons_self row rest)
    have hrest : [] ∉ rest := fun hm => hne (List.mem_cons_of_mem _ hm)
    have hre := neNil_isEmpty row hrow
    simp only [markPass]
    rw [if_neg (by simp [hre])]
    by_cases hdo : dateOnly row = true
    · rw [if_pos hdo]
      obtain ⟨ns, hns⟩ := ih (i + 1) seen hrest
      exact ⟨i :: ns, by rw [hns]; rfl⟩
    · rw [if_neg hdo]
      by_cases hmem : row ∈ seen
      · rw [if_pos hmem]
        obtain ⟨ns, hns⟩ := ih (i + 1) seen hrest
        exact ⟨i :: ns, by rw [hns]; rfl⟩
      · rw [if_neg hmem]
        exact ih (i + 1) (row :: seen) hrest

theorem deleteFrom_cons (i : Nat) (row : List String)
    (rest : List (List String)) (ns : List Nat) :
    deleteFrom i (row :: rest) ns =
      (if i ∈ ns then [] else [row]) ++ deleteFrom (i + 1) rest ns := by
  by_cases hmem : i ∈ ns <;>
    simp [deleteFrom, List.enumFrom, List.filterMap_cons, hmem]

theorem deleteFrom_nil_marks (l : List (List String)) : ∀ i,
    deleteFrom i l [] = l := by
  induction l with
  | nil => intro i; rfl
  | cons a t ih =>
    intro i
    rw [deleteFrom_cons, if_neg (List.not_mem_nil i), ih (i + 1)]
    rfl

theorem deleteFrom_cons_lt (rest : List (List String)) : ∀ i k ns, k < i →
    deleteFrom i rest (k :: ns) = deleteFrom i rest ns := by
  induction rest with
  | nil => intro i k ns _; rfl
  | cons a l ih =>
    intro i k ns hk
    rw [deleteFrom_cons, deleteFrom_cons, ih (i + 1) k ns (by omega)]
    by_cases hmem : i ∈ ns
    · rw [if_pos hmem, if_pos (List.mem_cons_of_mem _ hmem)]
    · rw [if_neg hmem, if_neg (fun hc => by
        rcases List.mem_cons.mp hc with rfl | hm
        · omega
        · exact hmem hm)]

theorem delete_eq_deleteFrom (l : List (List String)) (ns : List Nat) :
    delete_multiple_lines l ns = deleteFrom 0 l ns := by
  simp only [delete_multiple_lines]
  split
  · rename_i hns
    cases ns with
    | nil => exact (deleteFrom_nil_marks l 0).symm
    | cons a t => simp at hns
  · rfl

theorem markPass_deleteFrom (l : List (List String)) : ∀ i seen ns,
    [] ∉ l → markPass i seen l = .ok ns →
    deleteFrom i l ns = dedupSpec seen l := by
  induction l with
  | nil =>
    intro i seen ns _ h
    cases h
    rfl
  | cons row rest ih =>
    intro i seen ns hne h
    have hrow : row ≠ [] := fun hr => hne (hr ▸ List.mem_cons_self row rest)
    have hrest : [] ∉ rest := fun hm => hne (List.mem_cons_of_mem _ hm)
    have hre := neNil_isEmpty row hrow
    simp only [markPass] at h
    rw [if_neg (by simp [hre])] at h
    by_cases hdo : dateOnly row = true
    · rw [if_pos hdo] at h
      cases hm : markPass (i + 1) seen rest with
      | error e => rw [hm] at h; simp [Except.map] at h
      | ok ns' =>
        rw [hm] at h
        simp only [Except.map] at h
        cases h
        have hlb := mark_lb rest (i + 1) seen ns' hm
        rw [deleteFrom_cons, if_pos (List.mem_cons_self i ns'),
          deleteFrom_cons_lt rest (i + 1) i ns' (by omega),
          ih (i + 1) seen ns' hrest hm]
        simp only [dedupSpec]
        rw [if_pos (Or.inl hdo)]
        rfl
    · rw [if_neg hdo] at h
      by_cases hmem : row ∈ seen
      · rw [if_pos hmem] at h
        cases hm : markPass (i + 1) seen rest with
        | error e => rw [hm] at h; simp [Except.map] at h
        | ok ns' =>
          rw [hm] at h
          simp only [Except.map] at h
          cases h
          rw [deleteFrom_cons, if_pos (List.mem_cons_self i ns'),
            deleteFrom_cons_lt rest (i + 1) i ns' (by omega),
            ih (i + 1) seen ns' hrest hm]
          simp only [dedupSpec]
          rw [if_pos (Or.inr hmem)]
          rfl
      · rw [if_neg hmem] at h
        have hlb := mark_lb rest (i + 1) (row :: seen) ns h
        rw [deleteFrom_cons, if_neg (fun hc => by
            have := hlb i hc
            omega),
          ih (i + 1) (row :: seen) ns hrest h]
        simp only [dedupSpec]
        rw [if_neg (fun hc => by
          rcases hc with hc | hc
          · exact hdo hc
          · exact hmem hc)]
        rfl

theorem mem_dedupSpec (l : List (List String)) : ∀ seen x,
    x ∈ dedupSpec seen l → x ∈ l := by
  induction l with
  | nil => intro seen x h; simp [dedupSpec] at h
  | cons row rest ih =>
    intro seen x h
    simp only [dedupSpec] at h
    split at h
    · exact List.mem_cons_of_mem _ (ih seen x h)
    · rcases List.mem_cons.mp h with rfl | h2
      · exact List.mem_cons_self _ _
      · exact List.mem_cons_of_mem _ (ih (row :: seen) x h2)

theorem markPass_dedupSpec (l : List (List String)) : ∀ i seen,
    [] ∉ l → markPass i seen (dedupSpec seen l) = .ok [] := by
  induction l with
  | nil => intro i seen _; rfl
  | cons row rest ih =>
    intro i seen hne
    have hrow : row ≠ [] := fun hr => hne (hr ▸ List.mem_cons_self row rest)
    have hrest : [] ∉ rest := fun hm => hne (List.mem_cons_of_mem _ hm)
    simp only [dedupSpec]
    by_cases hcond : dateOnly row = true ∨ row ∈ seen
    · rw [if_pos hcond]
      exact ih i seen hrest
    · rw [if_neg hcond]
      push_neg at hcond
      simp only [markPass]
      rw [if_neg (by simp [neNil_isEmpty row hrow]),
        if_neg hcond.1, if_neg hcond.2]
      exact ih (i + 1) (row :: seen) hrest

theorem markPass_mem (l : List (List String)) : ∀ i seen ns,
    [] ∉ l → markPass i seen l = .ok ns →
    ∀ k, k ∈ ns ↔ ∃ m row, l.get? m = some row ∧ k = i + m ∧
      (dateOnly row = true ∨ row ∈ seen ∨ ∃ j < m, l.get? j = some row) := by
  induction l with
  | nil =>
    intro i seen ns _ h k
    cases h
    simp
  | cons row rest ih =>
    intro i seen ns hne h k
    have hrow : row ≠ [] := fun hr => hne (hr ▸ List.mem_cons_self row rest)
    have hrest : [] ∉ rest := fun hm => hne (List.mem_cons_of_mem _ hm)
    simp only [markPass] at h
    rw [if_neg (by simp [neNil_isEmpty row hrow])] at h
    by_cases hdo : dateOnly row = true
    · rw [if_pos hdo] at h
      cases hm : markPass (i + 1) seen rest with
      | error e => rw [hm] at h; simp [Except.map] at h
      | ok ns' =>
        rw [hm] at h
        simp only [Except.map] at h
        cases h
        have IH := ih (i + 1) seen ns' hrest hm
        constructor
        · intro hk
          rcases List.mem_cons.mp hk with rfl | hk'
          · exact ⟨0, row, rfl, by omega, Or.inl hdo⟩
          · obtain ⟨m, row', hget, hkm, hcond⟩ := (IH k).mp hk'
            refine ⟨m + 1, row', hget, by omega, ?_⟩
            rcases hcond with hc | hc | ⟨j, hj, hjg⟩
            · exact Or.inl hc
            · exact Or.inr (Or.inl hc)
            · exact Or.inr (Or.inr ⟨j + 1, by omega, hjg⟩)
        · rintro ⟨m, row', hget, hkm, hcond⟩
          cases m with
          | zero =>
            have hk : k = i := by omega
            exact hk ▸ List.mem_cons_self _ _
          | succ m' =>
            refine List.mem_cons_of_mem _ ((IH k).mpr ⟨m', row', hget, by omega, ?_⟩)
            rcases hcond with hc | hc | ⟨j, hj, hjg⟩
            · exact Or.inl hc
            · exact Or.inr (Or.inl hc)
            · cases j with
              | zero =>
                obtain rfl := Option.some.inj hjg
                exact Or.inl hdo
              | succ j' => exact Or.inr (Or.inr ⟨j', by omega, hjg⟩)
    · rw [if_neg hdo] at h
      by_cases hmem : row ∈ seen
      · rw [if_pos hmem] at h
        cases hm : markPass (i + 1) seen rest with
        | error e => rw [hm] at h; simp [Except.map] at h
        | ok ns' =>
          rw [hm] at h
          simp only [Except.map] at h
          cases h
          have IH := ih (i + 1) seen ns' hrest hm
          constructor
          · intro hk
            rcases List.mem_cons.mp hk with rfl | hk'
            · exact ⟨0, row, rfl, by omega, Or.inr (Or.inl hmem)⟩
            · obtain ⟨m, row', hget, hkm, hcond⟩ := (IH k).mp hk'
              refine ⟨m + 1, row', hget, by omega, ?_⟩
              rcases hcond with hc | hc | ⟨j, hj, hjg⟩
              · exact Or.inl hc
              · exact Or.inr (Or.inl hc)
              · exact Or.inr (Or.inr ⟨j + 1, by omega, hjg⟩)
          · rintro ⟨m, row', hget, hkm, hcond⟩
            cases m with
            | zero =>
              have hk : k = i := by omega
              exact hk ▸ List.mem_cons_self _ _
            | succ m' =>
              refine List.mem_cons_of_mem _
                ((IH k).mpr ⟨m', row', hget, by omega, ?_⟩)
              rcases hcond with hc | hc | ⟨j, hj, hjg⟩
              · exact Or.inl hc
              · exact Or.inr (Or.inl hc)
              · cases j with
                | zero =>
                  obtain rfl := Option.some.inj hjg
                  exact Or.inr (Or.inl hmem)
                | succ j' => exact Or.inr (Or.inr ⟨j', by omega, hjg⟩)
      · rw [if_neg hmem] at h
        have IH := ih (i + 1) (row :: seen) ns hrest h
        have hlb := mark_lb rest (i + 1) (row :: seen) ns h
        constructor
        · intro hk
          obtain ⟨m, row', hget, hkm, hcond⟩ := (IH k).mp hk
          refine ⟨m + 1, row', hget, by omega, ?_⟩
          rcases hcond with hc | hc | ⟨j, hj, hjg⟩
          · exact Or.inl hc
          · rcases List.mem_cons.mp hc with rfl | hc'
            · exact Or.inr (Or.inr ⟨0, by omega, rfl⟩)
            · exact Or.inr (Or.inl hc')
          · exact Or.inr (Or.inr ⟨j + 1, by omega, hjg⟩)
        · rintro ⟨m, row', hget, hkm, hcond⟩
          cases m with
          | zero =>
            obtain rfl := Option.some.inj hget
            rcases hcond with hc | hc | ⟨j, hj, _⟩
            · exact absurd hc hdo
            · exact absurd hc hmem
            · omega
          | succ m' =>
            refine (IH k).mpr ⟨m', row', hget, by omega, ?_⟩
            rcases hcond with hc | hc | ⟨j, hj, hjg⟩
            · exact Or.inl hc
            · exact Or.inr (Or.inl (List.mem_cons_of_mem _ hc))
            · cases j with
              | zero =>
                obtain rfl := Option.some.inj hjg
                exact Or.inr (Or.inl (List.mem_cons_self _ _))
              | succ j' => exact Or.inr (Or.inr ⟨j', by omega, hjg⟩)

/-- Example rows of the C8 claim. -/
def exampleA : List String := ["2024-01-01", "US", "x"]

/-- Example rows of the C8 claim. -/
def exampleB : List String := ["2024-01-02", "EU", "y"]

/-- A date-only-blank example row. -/
def exampleDateOnly : List String := ["2024-01-03", "", " "]

/-- The claim's example dataset `[A, A, B, dateonly-blank, B]`. -/
def exampleRows : List (List String) :=
  [exampleA, exampleA, exampleB, exampleDateOnly, exampleB]

/-- C8: over datasets without fully empty rows, a row is marked for
deletion iff it is blank apart from its leading date or its exact field
tuple occurred earlier; the pass keeps the survivors in their original
order (`dedupSpec`); it is idempotent (a second run deletes nothing and
returns the file unchanged); and the claim's example reduces to
`[A, B]`. -/
theorem claim_dedup :
    (∀ rows ns, [] ∉ rows → markPass 0 [] rows = .ok ns →
       ∀ k, k ∈ ns ↔ ∃ row, rows.get? k = some row ∧
         (dateOnly row = true ∨ ∃ j < k, rows.get? j = some row)) ∧
    (∀ rows, [] ∉ rows → dataset_dedup rows = .ok (dedupSpec [] rows)) ∧
    (∀ rows, [] ∉ rows →
       dataset_dedup (dedupSpec [] rows) = .ok (dedupSpec [] rows)) ∧
    dataset_dedup exampleRows = .ok [exampleA, exampleB] := by
  refine ⟨?_, ?_, ?_, by decide⟩
  · intro rows ns hne h k
    rw [markPass_mem rows 0 [] ns hne h k]
    constructor
    · rintro ⟨m, row, hget, hkm, hcond⟩
      have hmk : m = k := by omega
      subst hmk
      refine ⟨row, hget, ?_⟩
      rcases hcond with hc | hc | hc
      · exact Or.inl hc
      · simp at hc
      · exact Or.inr hc
    · rintro ⟨row, hget, hcond⟩
      refine ⟨k, row, hget, by omega, ?_⟩
      rcases hcond with hc | hc
      · exact Or.inl hc
      · exact Or.inr (Or.inr hc)
  · intro rows hne
    obtain ⟨ns, hns⟩ := markPass_ok rows 0 [] hne
    simp only [dataset_dedup, hns, Except.map]
    rw [delete_eq_deleteFrom, markPass_deleteFrom rows 0 [] ns hne hns]
  · intro rows hne
    have h0 := markPass_dedupSpec rows 0 [] hne
    simp only [dataset_dedup, h0, Except.map]
    rfl

/-- C8 witness: idempotence instantiated on the claim's example dataset. -/
theorem claim_dedup_witness :
    dataset_dedup (dedupSpec [] exampleRows) = .ok (dedupSpec [] exampleRows) :=
  claim_dedup.2.2.1 exampleRows (by decide)

theorem getD_strip_pad (row : List String) (n : Nat) : ∀ i : Nat,
    pyStrip ((row ++ List.replicate n "").getD i "") =
      ((row.map pyStrip) ++ List.replicate n "").getD i "" := by
  induction row with
  | nil =>
    intro i
    have hrep : ∀ m j, (List.replicate m ("" : String)).getD j "" = "" := by
      intro m
      induction m with
      | zero => intro j; cases j <;> rfl
      | succ k ihk =>
        intro j
        cases j with
        | zero => rfl
        | succ jj => exact ihk jj
    simp only [List.nil_append, List.map_nil, hrep]
    rfl
  | cons a t ih =>
    intro i
    cases i with
    | zero => rfl
    | succ j => exact ih j

/-- C9: the converter maps each CSV row to the fixed-key record with
whitespace-trimmed cells, pads short rows with empty strings, omits fully
blank rows, and keeps input order — stated as agreement with a
specification-side map and checked on the claim's example rows. -/
theorem claim_csv_to_json :
    (∀ rows, csv_to_json_rows rows = rows.filterMap specRowToEvent) ∧
    csv_to_json_rows [["2024-01-01", "US", "High", "NFP", "5", "4", "3"]] =
      [⟨"2024-01-01", "US", "High", "NFP", "5", "4", "3"⟩] ∧
    csv_to_json_rows [["a", "b", "c"]] = [⟨"a", "b", "c", "", "", "", ""⟩] ∧
    csv_to_json_rows [[" ", ""]] = [] := by
  refine ⟨?_, by decide, by decide, by decide⟩
  intro rows
  simp only [csv_to_json_rows]
  congr 1
  funext row
  by_cases hb : row.isEmpty || row.all (fun c => pyStrip c = "")
  · rw [if_pos hb]
    have hall : row.all (fun c => pyStrip c = "") = true := by
      rcases (Bool.or_eq_true _ _).mp hb with h1 | h1
      · cases row with
        | nil => rfl
        | cons a t => simp at h1
      · exact h1
    simp only [specRowToEvent]
    rw [if_pos hall]
  · rw [if_neg hb]
    have hall : ¬ (row.all (fun c => pyStrip c = "") = true) := by
      intro hc
      exact hb (by simp [hc])
    simp only [specRowToEvent]
    rw [if_neg hall]
    refine congrArg some ?_
    simp only [rowToEvent, padTo7, JsonEvent.mk.injEq]
    exact ⟨getD_strip_pad row (7 - row.length) 0,
      getD_strip_pad row (7 - row.length) 1,
      getD_strip_pad row (7 - row.length) 2,
      getD_strip_pad row (7 - row.length) 3,
      getD_strip_pad row (7 - row.length) 4,
      getD_strip_pad row (7 - row.length) 5,
      getD_strip_pad row (7 - row.length) 6⟩

/-- C10: converting a non-existent input path fails with the NotFound
condition, the CLI exits 1 with a stderr message, and no output file is
created (the file system is returned unchanged). -/
theorem claim_converter_not_found (fs : ConvFS) (args : ConvArgs)
    (h : fs.csvFiles.lookup args.csv_file = none) :
    csv_to_json_file fs args.csv_file args.output (!args.compact) =
      .error ("CSV file not found: " ++ args.csv_file) ∧
    main_conv fs args =
      (fs, 1, ["Error: " ++ ("CSV file not found: " ++ args.csv_file)]) := by
  have he : csv_to_json_file fs args.csv_file args.output (!args.compact) =
      .error ("CSV file not found: " ++ args.csv_file) := by
    simp only [csv_to_json_file, h]
  refine ⟨he, ?_⟩
  simp only [main_conv, he]

/-- C10 witness on an empty file system. -/
theorem claim_converter_not_found_witness :
    csv_to_json_file ⟨[], []⟩ "nope.csv" none true =
      .error "CSV file not found: nope.csv" ∧
    main_conv ⟨[], []⟩ ⟨"nope.csv", none, false⟩ =
      (⟨[], []⟩, 1, ["Error: CSV file not found: nope.csv"]) :=
  claim_converter_not_found ⟨[], []⟩ ⟨"nope.csv", none, false⟩ (by decide)
